import Mathlib

/-!
Verification of the EIP-4844 blob-transaction sidecar core
(`crates/eips/src/eip4844/sidecar.rs`): versioned-hash transform,
sidecar validation, per-item verification, and the header-less
RLP codec for the three parallel collections.

Byte sequences are modelled as `List Nat`; fixed-size byte buffers
(`FixedBytes<N>` in the source) as length-indexed subtypes.  The external
cryptography library (`c_kzg`) and the SHA-256 digest are opaque
collaborators of the source and are therefore passed in as explicit
function parameters; the trusted-setup handle is baked into those
parameters, matching its read-only, process-wide role.
-/

/-- A byte sequence (each entry is one byte of the buffer). -/
abbrev Bytes := List Nat

/-- Source `FixedBytes<N>`: a byte buffer of statically known length `n`. -/
abbrev FixedBytes (n : Nat) := {l : Bytes // l.length = n}

/-- Number of bytes in one blob (EIP-4844 protocol constant). -/
abbrev BYTES_PER_BLOB : Nat := 131072

/-- Number of bytes in a KZG commitment. -/
abbrev BYTES_PER_COMMITMENT : Nat := 48

/-- Number of bytes in a KZG proof. -/
abbrev BYTES_PER_PROOF : Nat := 48

/-- A blob: fixed-size large byte buffer. -/
abbrev Blob := FixedBytes BYTES_PER_BLOB

/-- A 48-byte opaque value (commitment or proof). -/
abbrev Bytes48 := FixedBytes 48

/-- A 32-byte value (hashes). -/
abbrev B256 := FixedBytes 32

/-- The versioned hash version for KZG (source constant `0x01`). -/
def VERSIONED_HASH_VERSION_KZG : Nat := 0x01

/-- A set of blobs with corresponding commitments and proofs
(`BlobTransactionSidecar`). -/
structure BlobTransactionSidecar where
  blobs : List Blob
  commitments : List Bytes48
  proofs : List Bytes48
deriving DecidableEq

/-- A single blob sidecar unit (`BlobTransactionSidecarItem`). -/
structure BlobTransactionSidecarItem where
  index : Nat
  blob : Blob
  kzg_commitment : Bytes48
  kzg_proof : Bytes48
deriving DecidableEq

/-- Modelled from the spec: the anchor input for item-level verification,
a `(position, hash)` pair (`BlockNumHash` from the surrounding crate, whose
definition is outside the provided sources). -/
structure BlockNumHash where
  number : Nat
  hash : B256
deriving DecidableEq

/-- Modelled from the spec: the error type of the external `c_kzg`
cryptography library, treated as opaque.  `MismatchLength` carries the two
counts that the source formats into its message; `BadBytesLength` models the
length check of the library's `from_bytes` constructors; `LibraryFault`
stands for any other internal library error. -/
inductive KzgError where
  | MismatchLength (numHashes : Nat) (numCommitments : Nat)
  | BadBytesLength (got : Nat) (expected : Nat)
  | LibraryFault (code : Nat)
deriving DecidableEq

/-- The validation error taxonomy (`BlobTransactionValidationError`).
The source's `have` field of `WrongVersionedHash` is named `got` here
(`have` is a reserved word in Lean). -/
inductive BlobTransactionValidationError where
  | InvalidProof
  | KZGError (err : KzgError)
  | NotBlobTransaction (typeFlag : Nat)
  | MissingSidecar
  | WrongVersionedHash (got : B256) (expected : B256)
deriving DecidableEq

instance {ε α : Type} [DecidableEq ε] [DecidableEq α] : DecidableEq (Except ε α) := fun a b =>
  match a, b with
  | .ok x, .ok y => decidable_of_iff (x = y) (by simp)
  | .ok _, .error _ => isFalse (by simp)
  | .error _, .ok _ => isFalse (by simp)
  | .error e, .error e' => decidable_of_iff (e = e') (by simp)

/-- The abstract SHA-256 digest (external `sha2` crate): any total map from
byte sequences to 32-byte digests. -/
abbrev Sha256Fn := Bytes → B256

/-- The external library's batched proof verification
(`c_kzg::KzgProof::verify_blob_kzg_proof_batch` with the trusted-setup
handle baked in): boolean-or-error. -/
abbrev BatchVerify := List Blob → List Bytes48 → List Bytes48 → Except KzgError Bool

/-- The external library's single-blob proof verification
(`c_kzg::KzgProof::verify_blob_kzg_proof` with the trusted-setup handle
baked in): boolean-or-error. -/
abbrev VerifyOne := Blob → Bytes48 → Bytes48 → Except KzgError Bool

/-- Source `hash[0] = v` on a 32-byte buffer: overwrite byte 0. -/
def set_byte0 (v : Nat) (h : B256) : B256 :=
  ⟨h.val.set 0 v, by simp [h.property]⟩

/-- Modelled from the spec: `kzg_to_versioned_hash` from the `eip4844`
module (outside the provided sources) — SHA-256 of the commitment bytes
with byte 0 overwritten by the version tag, identical to the in-source
`to_kzg_versioned_hash` (§4.1 of the spec: "Used identically whether
deriving a hash from a commitment the caller already trusts or from one
extracted from a sidecar under validation"). -/
def kzg_to_versioned_hash (sha256 : Sha256Fn) (commitment : Bytes) : B256 :=
  set_byte0 VERSIONED_HASH_VERSION_KZG (sha256 commitment)

/-- Source `VERSIONED_HASH_VERSION_KZG ++ sha256(commitment)[1..]`
(`BlobTransactionSidecarItem::to_kzg_versioned_hash`). -/
def BlobTransactionSidecarItem.to_kzg_versioned_hash
    (item : BlobTransactionSidecarItem) (sha256 : Sha256Fn) : B256 :=
  set_byte0 VERSIONED_HASH_VERSION_KZG (sha256 item.kzg_commitment.val)

/-- Source `c_kzg::Blob::from_bytes`: checks the byte length. -/
def c_kzg_Blob_from_bytes (l : Bytes) : Except KzgError Blob :=
  if h : l.length = BYTES_PER_BLOB then .ok ⟨l, h⟩
  else .error (.BadBytesLength l.length BYTES_PER_BLOB)

/-- Source `c_kzg::Bytes48::from_bytes`: checks the byte length. -/
def c_kzg_Bytes48_from_bytes (l : Bytes) : Except KzgError Bytes48 :=
  if h : l.length = 48 then .ok ⟨l, h⟩
  else .error (.BadBytesLength l.length 48)

/-- Source `BlobTransactionSidecarItem::verify_blob_kzg_proof`: convert the three
buffers to library values (each conversion's library error is wrapped as
`KZGError`), run single-blob verification (library error wrapped as
`KZGError`), and turn a `false` verification result into `InvalidProof`. -/
def BlobTransactionSidecarItem.verify_blob_kzg_proof
    (item : BlobTransactionSidecarItem) (verifyOne : VerifyOne) :
    Except BlobTransactionValidationError Bool :=
  match c_kzg_Blob_from_bytes item.blob.val with
  | .error e => .error (.KZGError e)
  | .ok blob =>
    match c_kzg_Bytes48_from_bytes item.kzg_commitment.val with
    | .error e => .error (.KZGError e)
    | .ok commitment =>
      match c_kzg_Bytes48_from_bytes item.kzg_proof.val with
      | .error e => .error (.KZGError e)
      | .ok proof =>
        match verifyOne blob commitment proof with
        | .error e => .error (.KZGError e)
        | .ok result => if result then .ok true else .error .InvalidProof

/-- Source `FixedBytes::<32>::from_slice(&self.blob[0..32])`: the first 32 bytes of
the raw blob. -/
def blob_hash_part (b : Blob) : B256 :=
  ⟨b.val.take 32, by rw [List.length_take, b.property]; rfl⟩

/-- Source `BlobTransactionSidecarItem::verify_blob`: positional anchor check,
versioned-hash check, then single-item proof verification with every
non-success outcome collapsed to `InvalidProof`. -/
def BlobTransactionSidecarItem.verify_blob
    (item : BlobTransactionSidecarItem) (sha256 : Sha256Fn) (verifyOne : VerifyOne)
    (hash : BlockNumHash) : Except BlobTransactionValidationError Unit :=
  if item.index ≠ hash.number then
    .error (.WrongVersionedHash (blob_hash_part item.blob) hash.hash)
  else
    if item.to_kzg_versioned_hash sha256 ≠ hash.hash then
      .error (.WrongVersionedHash (item.to_kzg_versioned_hash sha256) hash.hash)
    else
      match item.verify_blob_kzg_proof verifyOne with
      | .ok result => if result then .ok () else .error .InvalidProof
      | .error _ => .error .InvalidProof

/-- The per-position loop of `BlobTransactionSidecar::validate` over the
zipped `(versioned_hash, commitment)` pairs: returns the first
`WrongVersionedHash` failure, or `none` when every pair matches. -/
def checkVersionedHashes (sha256 : Sha256Fn) :
    List (B256 × Bytes48) → Option BlobTransactionValidationError
  | [] => none
  | (versioned_hash, commitment) :: rest =>
    if versioned_hash ≠ kzg_to_versioned_hash sha256 commitment.val then
      some (.WrongVersionedHash versioned_hash (kzg_to_versioned_hash sha256 commitment.val))
    else checkVersionedHashes sha256 rest

/-- Source `BlobTransactionSidecar::validate`: length gate (mismatch becomes a
`KZGError`-wrapped `MismatchLength` carrying both counts, hashes first),
fail-fast per-position versioned-hash check, then the batched library
verification — a library error is wrapped as `KZGError`, a `false` result
becomes `InvalidProof`. -/
def BlobTransactionSidecar.validate (sc : BlobTransactionSidecar)
    (sha256 : Sha256Fn) (batchVerify : BatchVerify) (blob_versioned_hashes : List B256) :
    Except BlobTransactionValidationError Unit :=
  if blob_versioned_hashes.length ≠ sc.commitments.length then
    .error (.KZGError (.MismatchLength blob_versioned_hashes.length sc.commitments.length))
  else
    match checkVersionedHashes sha256 (blob_versioned_hashes.zip sc.commitments) with
    | some e => .error e
    | none =>
      match batchVerify sc.blobs sc.commitments sc.proofs with
      | .error e => .error (.KZGError e)
      | .ok true => .ok ()
      | .ok false => .error .InvalidProof

/-- Modelled from the spec: minimal big-endian byte representation of a
length (the `alloy_rlp` length-of-length bytes; outside the provided
sources).  `beBytes 0 = []`. -/
def beBytes (n : Nat) : List Nat :=
  if h : n = 0 then [] else beBytes (n / 256) ++ [n % 256]
termination_by n
decreasing_by exact Nat.div_lt_self (Nat.pos_of_ne_zero h) (by decide)

/-- Big-endian value of a byte sequence. -/
def beVal (l : List Nat) : Nat :=
  l.foldl (fun acc b => acc * 256 + b) 0

/-- Modelled from the spec: the standard length-prefixed (RLP) encoding of
one byte string (`alloy_rlp`; outside the provided sources).  A single byte
below `0x80` is its own encoding; short strings get a one-byte
`0x80 + len` header; long strings get a `0xb7 + len-of-len` header followed
by the big-endian length. -/
def encodeString (s : Bytes) : List Nat :=
  if s.length = 1 ∧ s.headI < 0x80 then s
  else if s.length < 56 then (0x80 + s.length) :: s
  else (0xb7 + (beBytes s.length).length) :: (beBytes s.length ++ s)

/-- Modelled from the spec: the standard (RLP) list header for a payload of
`p` bytes. -/
def listHeader (p : Nat) : List Nat :=
  if p < 56 then [0xc0 + p] else (0xf7 + (beBytes p).length) :: beBytes p

/-- Modelled from the spec: the standard element-wise length-prefixed (RLP)
encoding of a sequence of byte strings — the list header for the
concatenated item encodings, then that payload. -/
def encodeVec (items : List Bytes) : List Nat :=
  listHeader ((items.map encodeString).flatten).length ++ (items.map encodeString).flatten

/-- Encoded length of one byte string (the `Encodable::length`
implementation for fixed byte values, computed without materializing the
encoding). -/
def rlpStrLength (s : Bytes) : Nat :=
  if s.length = 1 ∧ s.headI < 0x80 then 1
  else if s.length < 56 then 1 + s.length
  else 1 + (beBytes s.length).length + s.length

/-- Encoded length of a list header for a payload of `p` bytes. -/
def listHeaderLength (p : Nat) : Nat :=
  if p < 56 then 1 else 1 + (beBytes p).length

/-- Encoded length of a sequence of byte strings (the `Encodable::length`
implementation for vectors). -/
def rlpVecLength (items : List Bytes) : Nat :=
  listHeaderLength ((items.map rlpStrLength).sum) + (items.map rlpStrLength).sum

/-- Source `BlobTransactionSidecar::encode_inner`: the blobs, then the
commitments, then the proofs, with no enclosing header. -/
def BlobTransactionSidecar.encode_inner (sc : BlobTransactionSidecar) : List Nat :=
  encodeVec (sc.blobs.map Subtype.val) ++ encodeVec (sc.commitments.map Subtype.val) ++
    encodeVec (sc.proofs.map Subtype.val)

/-- Source `BlobTransactionSidecar::fields_len`: the summed encoded lengths of the
three sequences. -/
def BlobTransactionSidecar.fields_len (sc : BlobTransactionSidecar) : Nat :=
  rlpVecLength (sc.blobs.map Subtype.val) + rlpVecLength (sc.commitments.map Subtype.val) +
    rlpVecLength (sc.proofs.map Subtype.val)

/-- Modelled from the spec: decode one length-prefixed (RLP) byte string,
returning the payload and the remaining buffer; decode failures are
`none`. -/
def decodeString (buf : List Nat) : Option (Bytes × List Nat) :=
  match buf with
  | [] => none
  | b :: rest =>
    if b < 0x80 then some ([b], rest)
    else if b < 0xb8 then
      if b - 0x80 ≤ rest.length then
        some (rest.take (b - 0x80), rest.drop (b - 0x80))
      else none
    else if b < 0xc0 then
      if b - 0xb7 ≤ rest.length then
        if beVal (rest.take (b - 0xb7)) ≤ (rest.drop (b - 0xb7)).length then
          some ((rest.drop (b - 0xb7)).take (beVal (rest.take (b - 0xb7))),
            (rest.drop (b - 0xb7)).drop (beVal (rest.take (b - 0xb7))))
        else none
      else none
    else none

/-- Decode one fixed-size byte value (`FixedBytes<N>` decoding): a byte
string whose payload must have exactly `n` bytes. -/
def decodeFixed (n : Nat) (buf : List Nat) : Option (FixedBytes n × List Nat) :=
  match decodeString buf with
  | none => none
  | some (s, rest) => if h : s.length = n then some (⟨s, h⟩, rest) else none

/-- Modelled from the spec: decode a (RLP) list header, returning the
payload length and the remaining buffer. -/
def decodeListHeader (buf : List Nat) : Option (Nat × List Nat) :=
  match buf with
  | [] => none
  | b :: rest =>
    if b < 0xc0 then none
    else if b < 0xf8 then some (b - 0xc0, rest)
    else
      if b - 0xf7 ≤ rest.length then
        some (beVal (rest.take (b - 0xf7)), rest.drop (b - 0xf7))
      else none

/-- Decode consecutive fixed-size elements until the buffer is exhausted.
`fuel` bounds the recursion; each element consumes at least one byte, so
any `fuel ≥ buf.length` is enough. -/
def decodeElems (n fuel : Nat) (buf : List Nat) : Option (List (FixedBytes n)) :=
  match buf with
  | [] => some []
  | b :: bs =>
    match fuel with
    | 0 => none
    | fuel + 1 =>
      match decodeFixed n (b :: bs) with
      | none => none
      | some (x, rest) => (decodeElems n fuel rest).map (fun xs => x :: xs)

/-- Decode a sequence of fixed-size byte values: list header, then elements
filling exactly the announced payload. -/
def decodeVec (n : Nat) (buf : List Nat) : Option (List (FixedBytes n) × List Nat) :=
  match decodeListHeader buf with
  | none => none
  | some (plen, rest) =>
    if plen ≤ rest.length then
      match decodeElems n plen (rest.take plen) with
      | none => none
      | some xs => some (xs, rest.drop plen)
    else none

/-- Source `Decodable for BlobTransactionSidecar`: the three sequences in fixed
order, returning the sidecar and the unconsumed buffer. -/
def BlobTransactionSidecar.decode (buf : List Nat) :
    Option (BlobTransactionSidecar × List Nat) :=
  match decodeVec BYTES_PER_BLOB buf with
  | none => none
  | some (blobs, r1) =>
    match decodeVec BYTES_PER_COMMITMENT r1 with
    | none => none
    | some (commitments, r2) =>
      match decodeVec BYTES_PER_PROOF r2 with
      | none => none
      | some (proofs, r3) => some (⟨blobs, commitments, proofs⟩, r3)

/-- The all-zero byte buffer of length `n` (concrete test vector). -/
def zeroBytes (n : Nat) : FixedBytes n := ⟨List.replicate n 0, List.length_replicate n 0⟩

/-- The all-zero blob. -/
def zeroBlob : Blob := zeroBytes BYTES_PER_BLOB

/-- The all-zero 48-byte value. -/
def zero48 : Bytes48 := zeroBytes 48

/-- The all-zero 32-byte value. -/
def zero32 : B256 := zeroBytes 32

/-- A concrete digest function: the constant all-zero digest. -/
def shaZero : Sha256Fn := fun _ => zeroBytes 32

/-- A batched verification that always reports success. -/
def batchOk : BatchVerify := fun _ _ _ => .ok true

/-- A single-blob verification that always fails with a library fault. -/
def verifyFault : VerifyOne := fun _ _ _ => .error (.LibraryFault 0)

/-- A single-blob verification that always completes and reports `false`. -/
def verifyFalse : VerifyOne := fun _ _ _ => .ok false

/-- A concrete single-blob sidecar item at index 0. -/
def item0 : BlobTransactionSidecarItem := ⟨0, zeroBlob, zero48, zero48⟩

theorem beVal_append_singleton (l : List Nat) (b : Nat) :
    beVal (l ++ [b]) = beVal l * 256 + b := by
  simp [beVal, List.foldl_append]

theorem beVal_beBytes (n : Nat) : beVal (beBytes n) = n := by
  induction n using Nat.strong_induction_on with
  | _ n ih =>
    rw [beBytes]
    by_cases h : n = 0
    · simp [h, beVal]
    · rw [dif_neg h, beVal_append_singleton,
        ih (n / 256) (Nat.div_lt_self (Nat.pos_of_ne_zero h) (by decide))]
      omega

theorem beBytes_ne_nil (n : Nat) (h : n ≠ 0) : beBytes n ≠ [] := by
  rw [beBytes, dif_neg h]
  simp

theorem beBytes_length_le : ∀ (k n : Nat), n < 256 ^ k → (beBytes n).length ≤ k := by
  intro k
  induction k with
  | zero =>
    intro n hn
    have hz : n = 0 := by simpa using hn
    subst hz
    rw [beBytes]
    simp
  | succ k ih =>
    intro n hn
    by_cases h : n = 0
    · subst h
      rw [beBytes]
      simp
    · rw [beBytes, dif_neg h]
      have hdiv : n / 256 < 256 ^ k := by
        rw [Nat.div_lt_iff_lt_mul (by decide : 0 < 256)]
        calc n < 256 ^ (k + 1) := hn
          _ = 256 ^ k * 256 := by rw [Nat.pow_succ]
      have := ih (n / 256) hdiv
      simp only [List.length_append, List.length_cons, List.length_nil]
      omega

theorem encodeString_ne_nil (s : Bytes) : encodeString s ≠ [] := by
  rw [encodeString]
  by_cases h1 : s.length = 1 ∧ s.headI < 0x80
  · rw [if_pos h1]
    intro he
    rw [he] at h1
    simp at h1
  · rw [if_neg h1]
    by_cases h2 : s.length < 56
    · rw [if_pos h2]; simp
    · rw [if_neg h2]; simp

theorem decodeString_encodeString (s : Bytes) (rest : List Nat) (hs : s.length < 2 ^ 64) :
    decodeString (encodeString s ++ rest) = some (s, rest) := by
  rw [encodeString]
  by_cases h1 : s.length = 1 ∧ s.headI < 0x80
  · rw [if_pos h1]
    obtain ⟨hlen, hb⟩ := h1
    cases s with
    | nil => simp at hlen
    | cons a t =>
      have ht : t = [] := by simpa using hlen
      subst ht
      have ha : a < 0x80 := by simpa using hb
      simp [decodeString, ha]
  · rw [if_neg h1]
    by_cases h2 : s.length < 56
    · rw [if_pos h2, List.cons_append]
      show decodeString ((0x80 + s.length) :: (s ++ rest)) = some (s, rest)
      rw [decodeString]
      rw [if_neg (by omega), if_pos (by omega)]
      have h80 : 0x80 + s.length - 0x80 = s.length := by omega
      rw [h80, if_pos (by simp)]
      rw [List.take_left, List.drop_left]
    · rw [if_neg h2]
      push_neg at h2
      have hLne : s.length ≠ 0 := by omega
      have hll1 : 0 < (beBytes s.length).length :=
        List.length_pos.mpr (beBytes_ne_nil s.length hLne)
      have h2to8 : (256 : Nat) ^ 8 = 2 ^ 64 := by norm_num
      have hll8 : (beBytes s.length).length ≤ 8 :=
        beBytes_length_le 8 s.length (by omega)
      rw [List.cons_append, List.append_assoc]
      show decodeString ((0xb7 + (beBytes s.length).length) :: (beBytes s.length ++ (s ++ rest)))
        = some (s, rest)
      rw [decodeString]
      rw [if_neg (by omega), if_neg (by omega), if_pos (by omega)]
      have hb7 : 0xb7 + (beBytes s.length).length - 0xb7 = (beBytes s.length).length := by omega
      rw [hb7, if_pos (by simp)]
      rw [List.take_left, List.drop_left, beVal_beBytes]
      rw [if_pos (by simp), List.take_left, List.drop_left]

theorem decodeListHeader_listHeader (p : Nat) (rest : List Nat) :
    decodeListHeader (listHeader p ++ rest) = some (p, rest) := by
  rw [listHeader]
  by_cases hp : p < 56
  · rw [if_pos hp]
    show decodeListHeader ((0xc0 + p) :: rest) = some (p, rest)
    rw [decodeListHeader]
    rw [if_neg (by omega), if_pos (by omega)]
    have : 0xc0 + p - 0xc0 = p := by omega
    rw [this]
  · rw [if_neg hp]
    push_neg at hp
    have hpne : p ≠ 0 := by omega
    have hll1 : 0 < (beBytes p).length := List.length_pos.mpr (beBytes_ne_nil p hpne)
    rw [List.cons_append]
    show decodeListHeader ((0xf7 + (beBytes p).length) :: (beBytes p ++ rest)) = some (p, rest)
    rw [decodeListHeader]
    rw [if_neg (by omega), if_neg (by omega)]
    have hf7 : 0xf7 + (beBytes p).length - 0xf7 = (beBytes p).length := by omega
    rw [hf7, if_pos (by simp)]
    rw [List.take_left, List.drop_left, beVal_beBytes]

theorem decodeFixed_encodeString {n : Nat} (x : FixedBytes n) (rest : List Nat)
    (hn : n < 2 ^ 64) :
    decodeFixed n (encodeString x.val ++ rest) = some (x, rest) := by
  simp only [decodeFixed,
    decodeString_encodeString x.val rest (by rw [x.property]; exact hn)]
  rw [dif_pos x.property]

theorem flatten_length_ge (n : Nat) (items : List (FixedBytes n)) :
    items.length ≤ ((items.map (fun x => encodeString x.val)).flatten).length := by
  induction items with
  | nil => simp
  | cons x t ih =>
    simp only [List.map_cons, List.flatten_cons, List.length_append, List.length_cons]
    have hx : 0 < (encodeString x.val).length := List.length_pos.mpr (encodeString_ne_nil _)
    omega

theorem decodeElems_encode (n : Nat) (hn : n < 2 ^ 64) :
    ∀ (items : List (FixedBytes n)) (fuel : Nat), items.length ≤ fuel →
      decodeElems n fuel ((items.map (fun x => encodeString x.val)).flatten) = some items := by
  intro items
  induction items with
  | nil =>
    intro fuel _
    simp [decodeElems]
  | cons x t ih =>
    intro fuel hfuel
    simp only [List.map_cons, List.flatten_cons]
    cases hE : encodeString x.val with
    | nil => exact absurd hE (encodeString_ne_nil _)
    | cons b bs =>
      cases fuel with
      | zero => simp at hfuel
      | succ f =>
        rw [List.cons_append]
        simp only [decodeElems]
        rw [← List.cons_append, ← hE, decodeFixed_encodeString x _ hn]
        have hf : t.length ≤ f := by
          simp only [List.length_cons] at hfuel
          omega
        show Option.map (fun xs => x :: xs)
          (decodeElems n f ((t.map (fun y => encodeString y.val)).flatten)) = some (x :: t)
        rw [ih f hf]
        rfl

theorem decodeVec_encodeVec (n : Nat) (hn : n < 2 ^ 64) (items : List (FixedBytes n))
    (rest : List Nat) :
    decodeVec n (encodeVec (items.map Subtype.val) ++ rest) = some (items, rest) := by
  have hm : (items.map Subtype.val).map encodeString
      = items.map (fun x => encodeString x.val) := by
    rw [List.map_map]
    rfl
  rw [encodeVec, hm, List.append_assoc]
  simp only [decodeVec, decodeListHeader_listHeader]
  rw [if_pos (by simp), List.take_left, List.drop_left,
    decodeElems_encode n hn items _ (flatten_length_ge n items)]

theorem sidecar_decode_encode (sc : BlobTransactionSidecar) :
    BlobTransactionSidecar.decode sc.encode_inner = some (sc, []) := by
  have hb : BYTES_PER_BLOB < 2 ^ 64 := by norm_num [BYTES_PER_BLOB]
  have hc : BYTES_PER_COMMITMENT < 2 ^ 64 := by norm_num [BYTES_PER_COMMITMENT]
  have hp : BYTES_PER_PROOF < 2 ^ 64 := by norm_num [BYTES_PER_PROOF]
  obtain ⟨blobs, commitments, proofs⟩ := sc
  show BlobTransactionSidecar.decode
      (encodeVec (blobs.map Subtype.val) ++ encodeVec (commitments.map Subtype.val) ++
        encodeVec (proofs.map Subtype.val)) = _
  rw [List.append_assoc]
  rw [show encodeVec (proofs.map Subtype.val) = encodeVec (proofs.map Subtype.val) ++ []
    from (List.append_nil _).symm]
  simp only [BlobTransactionSidecar.decode, decodeVec_encodeVec BYTES_PER_BLOB hb,
    decodeVec_encodeVec BYTES_PER_COMMITMENT hc, decodeVec_encodeVec BYTES_PER_PROOF hp]

theorem length_encodeString (s : Bytes) : (encodeString s).length = rlpStrLength s := by
  rw [encodeString, rlpStrLength]
  by_cases h1 : s.length = 1 ∧ s.headI < 0x80
  · rw [if_pos h1, if_pos h1, h1.1]
  · rw [if_neg h1, if_neg h1]
    by_cases h2 : s.length < 56
    · rw [if_pos h2, if_pos h2]
      simp only [List.length_cons]
      omega
    · rw [if_neg h2, if_neg h2]
      simp only [List.length_cons, List.length_append]
      omega

theorem length_listHeader (p : Nat) : (listHeader p).length = listHeaderLength p := by
  rw [listHeader, listHeaderLength]
  by_cases hp : p < 56
  · rw [if_pos hp, if_pos hp]
    rfl
  · rw [if_neg hp, if_neg hp]
    simp only [List.length_cons]
    omega

theorem length_encodeVec (items : List Bytes) : (encodeVec items).length = rlpVecLength items := by
  rw [encodeVec, rlpVecLength]
  have hpl : ((items.map encodeString).flatten).length = (items.map rlpStrLength).sum := by
    rw [List.length_flatten, List.map_map]
    congr 1
    exact List.map_congr_left (fun s _ => length_encodeString s)
  rw [List.length_append, length_listHeader, hpl]

/-- The error returned by the first mismatching pair in the versioned-hash
loop, and `none` when every pair matches. -/
theorem checkVersionedHashes_eq_none (sha256 : Sha256Fn) :
    ∀ (l : List (B256 × Bytes48)),
      (∀ p ∈ l, p.1 = kzg_to_versioned_hash sha256 p.2.val) →
      checkVersionedHashes sha256 l = none := by
  intro l
  induction l with
  | nil => intro _; rfl
  | cons p t ih =>
    intro hall
    obtain ⟨vh, c⟩ := p
    have hp := hall (vh, c) (List.mem_cons_self _ _)
    rw [checkVersionedHashes]
    rw [if_neg (by simpa using hp)]
    exact ih (fun q hq => hall q (List.mem_cons_of_mem _ hq))

theorem checkVersionedHashes_first_mismatch (sha256 : Sha256Fn) :
    ∀ (l : List (B256 × Bytes48)) (j : Nat) (hj : j < l.length),
      (∀ i (hi : i < l.length), i < j →
        (l.get ⟨i, hi⟩).1 = kzg_to_versioned_hash sha256 (l.get ⟨i, hi⟩).2.val) →
      (l.get ⟨j, hj⟩).1 ≠ kzg_to_versioned_hash sha256 (l.get ⟨j, hj⟩).2.val →
      checkVersionedHashes sha256 l = some (.WrongVersionedHash (l.get ⟨j, hj⟩).1
        (kzg_to_versioned_hash sha256 (l.get ⟨j, hj⟩).2.val)) := by
  intro l
  induction l with
  | nil =>
    intro j hj
    simp at hj
  | cons p t ih =>
    intro j hj hmin hne
    obtain ⟨vh, c⟩ := p
    cases j with
    | zero =>
      rw [checkVersionedHashes]
      rw [if_pos (by simpa using hne)]
      rfl
    | succ k =>
      have hhead : vh = kzg_to_versioned_hash sha256 c.val := by
        have := hmin 0 (by simp) (Nat.succ_pos k)
        simpa using this
      rw [checkVersionedHashes]
      rw [if_neg (by simpa using hhead)]
      have hk : k < t.length := by
        simp only [List.length_cons] at hj
        omega
      have hmin2 : ∀ i (hi : i < t.length), i < k →
          (t.get ⟨i, hi⟩).1 = kzg_to_versioned_hash sha256 (t.get ⟨i, hi⟩).2.val := by
        intro i hi hik
        have := hmin (i + 1) (by simp only [List.length_cons]; omega) (by omega)
        simpa using this
      have hne2 : (t.get ⟨k, hk⟩).1 ≠ kzg_to_versioned_hash sha256 (t.get ⟨k, hk⟩).2.val := by
        simpa using hne
      have := ih k hk hmin2 hne2
      rw [this]
      congr 1

theorem get_zip_eq {α β : Type} (l1 : List α) (l2 : List β) (i : Nat)
    (hiz : i < (l1.zip l2).length) (hi : i < l1.length) (hic : i < l2.length) :
    (l1.zip l2).get ⟨i, hiz⟩ = (l1.get ⟨i, hi⟩, l2.get ⟨i, hic⟩) := by
  simp [List.getElem_zip]

theorem c_kzg_Blob_from_bytes_val (b : Blob) : c_kzg_Blob_from_bytes b.val = .ok b := by
  rw [c_kzg_Blob_from_bytes, dif_pos b.property]

theorem c_kzg_Bytes48_from_bytes_val (b : Bytes48) :
    c_kzg_Bytes48_from_bytes b.val = .ok b := by
  rw [c_kzg_Bytes48_from_bytes, dif_pos b.property]

/-- Since the item's buffers already have the protocol sizes, the three
`from_bytes` conversions inside `verify_blob_kzg_proof` always succeed, and
the result is determined by the library verification alone. -/
theorem verify_blob_kzg_proof_eq (item : BlobTransactionSidecarItem)
    (verifyOne : VerifyOne) :
    item.verify_blob_kzg_proof verifyOne
      = match verifyOne item.blob item.kzg_commitment item.kzg_proof with
        | .ok true => .ok true
        | .ok false => .error .InvalidProof
        | .error e => .error (.KZGError e) := by
  rw [BlobTransactionSidecarItem.verify_blob_kzg_proof]
  simp only [c_kzg_Blob_from_bytes_val, c_kzg_Bytes48_from_bytes_val]
  cases hv : verifyOne item.blob item.kzg_commitment item.kzg_proof with
  | ok b => cases b <;> rfl
  | error e => rfl

/-- C1 (counterexample): for a concrete single-blob sidecar with commitment
`C = zero48` and caller-supplied hash `h = zero32 ≠ versioned_hash(C)`,
`validate` returns `WrongVersionedHash` with the caller-supplied value in
the `have` field and the recomputed hash in the `expected` field — the
opposite of the claimed field assignment. -/
theorem C1_counterexample :
    (BlobTransactionSidecar.mk [zeroBlob] [zero48] [zero48]).validate shaZero batchOk [zero32]
        = .error (.WrongVersionedHash zero32 (kzg_to_versioned_hash shaZero zero48.val))
    ∧ (BlobTransactionSidecar.mk [zeroBlob] [zero48] [zero48]).validate shaZero batchOk [zero32]
        ≠ .error (.WrongVersionedHash (kzg_to_versioned_hash shaZero zero48.val) zero32)
    ∧ zero32 ≠ kzg_to_versioned_hash shaZero zero48.val := by
  refine ⟨by decide, by decide, by decide⟩

/-- C1 (amended): for a single-blob sidecar with commitment `c` and any
caller-supplied 32-byte value `h ≠ versioned_hash(c)`, `validate` fails with
`WrongVersionedHash` whose `have` field is `h` (the caller-supplied value)
and whose `expected` field is `versioned_hash(c)` (the hash recomputed from
the commitment). -/
theorem C1_validate_single_wrong_hash (sha256 : Sha256Fn) (batchVerify : BatchVerify)
    (blob : Blob) (c proof : Bytes48) (h : B256)
    (hne : h ≠ kzg_to_versioned_hash sha256 c.val) :
    (BlobTransactionSidecar.mk [blob] [c] [proof]).validate sha256 batchVerify [h]
      = .error (.WrongVersionedHash h (kzg_to_versioned_hash sha256 c.val)) := by
  rw [BlobTransactionSidecar.validate, if_neg (by simp)]
  have hz : [h].zip (BlobTransactionSidecar.mk [blob] [c] [proof]).commitments = [(h, c)] := rfl
  rw [hz, checkVersionedHashes, if_pos hne]

/-- C1 (witness): the amended statement at the concrete input of the
counterexample. -/
theorem C1_witness :
    zero32 ≠ kzg_to_versioned_hash shaZero zero48.val
    ∧ (BlobTransactionSidecar.mk [zeroBlob] [zero48] [zero48]).validate shaZero batchOk [zero32]
        = .error (.WrongVersionedHash zero32 (kzg_to_versioned_hash shaZero zero48.val)) :=
  ⟨by decide, C1_validate_single_wrong_hash shaZero batchOk zeroBlob zero48 zero48 zero32
    (by decide)⟩

/-- C2 (counterexample): with a library verification that completes without
error and reports `false`, `verify_blob_kzg_proof` does not return
`Ok(false)` — it returns the `InvalidProof` error itself, so the claimed
`Ok(false)`-then-wrapper-converts behaviour is false. -/
theorem C2_counterexample :
    verifyFalse item0.blob item0.kzg_commitment item0.kzg_proof = .ok false
    ∧ item0.verify_blob_kzg_proof verifyFalse ≠ .ok false
    ∧ item0.verify_blob_kzg_proof verifyFalse = .error .InvalidProof := by
  refine ⟨rfl, ?_, ?_⟩
  · rw [verify_blob_kzg_proof_eq]
    decide
  · rw [verify_blob_kzg_proof_eq]
    rfl

/-- C2 (amended): when the single-blob library verification completes
without a library error but reports the proof invalid (`Ok(false)` from the
library), `verify_blob_kzg_proof` itself converts this into the
`InvalidProof` error (it never returns `Ok(false)` to its caller). -/
theorem C2_kzg_false_is_invalid_proof (verifyOne : VerifyOne)
    (item : BlobTransactionSidecarItem)
    (hv : verifyOne item.blob item.kzg_commitment item.kzg_proof = .ok false) :
    item.verify_blob_kzg_proof verifyOne = .error .InvalidProof
    ∧ item.verify_blob_kzg_proof verifyOne ≠ .ok false := by
  rw [verify_blob_kzg_proof_eq, hv]
  exact ⟨rfl, by decide⟩

/-- C2 (witness): the amended statement at the counterexample input. -/
theorem C2_witness :
    verifyFalse item0.blob item0.kzg_commitment item0.kzg_proof = .ok false
    ∧ item0.verify_blob_kzg_proof verifyFalse = .error .InvalidProof :=
  ⟨rfl, (C2_kzg_false_is_invalid_proof verifyFalse item0 rfl).1⟩

/-- C3: whenever the item's index differs from the anchor's position,
`verify_blob` fails — for every digest function and every library
verification behaviour, so no hash is recomputed and no cryptographic call
is consulted — with `WrongVersionedHash` whose `have` field is the 32-byte
slice of the raw blob bytes and whose `expected` field is the anchor's
hash. -/
theorem C3_verify_blob_index_mismatch (sha256 : Sha256Fn) (verifyOne : VerifyOne)
    (item : BlobTransactionSidecarItem) (anchor : BlockNumHash)
    (hne : item.index ≠ anchor.number) :
    item.verify_blob sha256 verifyOne anchor
      = .error (.WrongVersionedHash (blob_hash_part item.blob) anchor.hash) := by
  rw [BlobTransactionSidecarItem.verify_blob, if_pos hne]

/-- C3 (witness): a concrete item at index 0 against an anchor at
position 1. -/
theorem C3_witness :
    item0.index ≠ (BlockNumHash.mk 1 zero32).number
    ∧ item0.verify_blob shaZero verifyFault (BlockNumHash.mk 1 zero32)
        = .error (.WrongVersionedHash (blob_hash_part item0.blob) zero32) :=
  ⟨by decide, C3_verify_blob_index_mismatch shaZero verifyFault item0 (BlockNumHash.mk 1 zero32)
    (by decide)⟩

/-- C10: whenever the expected-hash list's length differs from the
commitments' length, `validate` fails — for every digest function and every
batched verification behaviour, so no hash comparison and no cryptographic
call happens — with the `KZGError`-wrapped `MismatchLength` error carrying
both counts. -/
theorem C10_validate_length_mismatch (sha256 : Sha256Fn) (batchVerify : BatchVerify)
    (sc : BlobTransactionSidecar) (hashes : List B256)
    (hne : hashes.length ≠ sc.commitments.length) :
    sc.validate sha256 batchVerify hashes
      = .error (.KZGError (.MismatchLength hashes.length sc.commitments.length)) := by
  rw [BlobTransactionSidecar.validate, if_pos hne]

/-- C10 (witness): zero expected hashes against one commitment. -/
theorem C10_witness :
    ([] : List B256).length ≠ (BlobTransactionSidecar.mk [] [zero48] []).commitments.length
    ∧ (BlobTransactionSidecar.mk [] [zero48] []).validate shaZero batchOk []
        = .error (.KZGError (.MismatchLength 0 1)) :=
  ⟨by decide, C10_validate_length_mismatch shaZero batchOk
    (BlobTransactionSidecar.mk [] [zero48] []) [] (by decide)⟩

/-- C4: for equal-length expected-hash and commitment lists, if position `j`
is the smallest position whose recomputed versioned hash differs from the
expected one, `validate` fails with `WrongVersionedHash` for exactly that
position — for every blob list, proof list, and batched verification
behaviour, so later mismatches are not aggregated and the batched
cryptographic check is never consulted. -/
theorem C4_validate_first_mismatch (sha256 : Sha256Fn) (batchVerify : BatchVerify)
    (blobs : List Blob) (proofs : List Bytes48) (commitments : List Bytes48)
    (hashes : List B256) (hlen : hashes.length = commitments.length)
    (j : Nat) (hj : j < hashes.length) (hjc : j < commitments.length)
    (hmin : ∀ i (hi : i < hashes.length) (hic : i < commitments.length), i < j →
      hashes.get ⟨i, hi⟩ = kzg_to_versioned_hash sha256 (commitments.get ⟨i, hic⟩).val)
    (hne : hashes.get ⟨j, hj⟩ ≠ kzg_to_versioned_hash sha256 (commitments.get ⟨j, hjc⟩).val) :
    (BlobTransactionSidecar.mk blobs commitments proofs).validate sha256 batchVerify hashes
      = .error (.WrongVersionedHash (hashes.get ⟨j, hj⟩)
          (kzg_to_versioned_hash sha256 (commitments.get ⟨j, hjc⟩).val)) := by
  have hzl : (hashes.zip commitments).length = hashes.length := by
    rw [List.length_zip, hlen, min_self]
  have hjz : j < (hashes.zip commitments).length := by rw [hzl]; exact hj
  have hmin2 : ∀ i (hi : i < (hashes.zip commitments).length), i < j →
      ((hashes.zip commitments).get ⟨i, hi⟩).1
        = kzg_to_versioned_hash sha256 ((hashes.zip commitments).get ⟨i, hi⟩).2.val := by
    intro i hiz hij
    have hi : i < hashes.length := by rw [hzl] at hiz; exact hiz
    have hic : i < commitments.length := by omega
    rw [get_zip_eq hashes commitments i hiz hi hic]
    exact hmin i hi hic hij
  have hne2 : ((hashes.zip commitments).get ⟨j, hjz⟩).1
      ≠ kzg_to_versioned_hash sha256 ((hashes.zip commitments).get ⟨j, hjz⟩).2.val := by
    rw [get_zip_eq hashes commitments j hjz hj hjc]
    exact hne
  have key := checkVersionedHashes_first_mismatch sha256 (hashes.zip commitments) j hjz hmin2 hne2
  rw [get_zip_eq hashes commitments j hjz hj hjc] at key
  rw [BlobTransactionSidecar.validate, if_neg (by simp [hlen])]
  simp only []
  rw [key]

/-- C4 (witness): a one-commitment sidecar whose only expected hash
mismatches at position 0. -/
theorem C4_witness :
    (BlobTransactionSidecar.mk [] [zero48] []).validate shaZero batchOk [zero32]
      = .error (.WrongVersionedHash zero32 (kzg_to_versioned_hash shaZero zero48.val)) :=
  C4_validate_first_mismatch shaZero batchOk [] [] [zero48] [zero32] rfl 0 (by decide)
    (by decide) (fun i hi hic hij => absurd hij (Nat.not_lt_zero i)) (by decide)

/-- C5: when the lengths agree and every per-position hash check passes,
`validate` returns exactly the translation of the batched verification's
outcome — success iff the batch reports `true`, `InvalidProof` on a `false`
report, and the `KZGError`-wrapped library error otherwise. -/
theorem C5_validate_batch_outcome (sha256 : Sha256Fn) (batchVerify : BatchVerify)
    (sc : BlobTransactionSidecar) (hashes : List B256)
    (hlen : hashes.length = sc.commitments.length)
    (hall : ∀ i (hi : i < hashes.length) (hic : i < sc.commitments.length),
      hashes.get ⟨i, hi⟩ = kzg_to_versioned_hash sha256 (sc.commitments.get ⟨i, hic⟩).val) :
    (sc.validate sha256 batchVerify hashes
        = match batchVerify sc.blobs sc.commitments sc.proofs with
          | .ok true => .ok ()
          | .ok false => .error .InvalidProof
          | .error e => .error (.KZGError e))
    ∧ (sc.validate sha256 batchVerify hashes = .ok ()
        ↔ batchVerify sc.blobs sc.commitments sc.proofs = .ok true) := by
  have hnone : checkVersionedHashes sha256 (hashes.zip sc.commitments) = none := by
    apply checkVersionedHashes_eq_none
    intro p hp
    obtain ⟨⟨k, hkz⟩, hk⟩ := List.get_of_mem hp
    have hbounds := hkz
    rw [List.length_zip, lt_min_iff] at hbounds
    obtain ⟨hi, hic⟩ := hbounds
    rw [← hk, get_zip_eq hashes sc.commitments k hkz hi hic]
    exact hall k hi hic
  have hmain : sc.validate sha256 batchVerify hashes
      = match batchVerify sc.blobs sc.commitments sc.proofs with
        | .ok true => .ok ()
        | .ok false => .error .InvalidProof
        | .error e => .error (.KZGError e) := by
    rw [BlobTransactionSidecar.validate, if_neg (by simp [hlen]), hnone]
    cases hB : batchVerify sc.blobs sc.commitments sc.proofs with
    | ok b => cases b <;> rfl
    | error e => rfl
  refine ⟨hmain, ?_⟩
  rw [hmain]
  cases hB : batchVerify sc.blobs sc.commitments sc.proofs with
  | ok b => cases b <;> simp
  | error e => simp

/-- C5 (witness): a one-commitment sidecar with the matching expected hash
and an always-true batch verification. -/
theorem C5_witness :
    (BlobTransactionSidecar.mk [] [zero48] []).validate shaZero batchOk
        [kzg_to_versioned_hash shaZero zero48.val] = .ok ()
    ∧ batchOk [] [zero48] [] = .ok true :=
  ⟨(C5_validate_batch_outcome shaZero batchOk (BlobTransactionSidecar.mk [] [zero48] [])
      [kzg_to_versioned_hash shaZero zero48.val] rfl
      (fun i hi hic => match i, hi with
        | 0, _ => rfl
        | (i + 1), hi => absurd hi (by simp))).2.mpr rfl, rfl⟩

/-- C6: when the item's index equals the anchor's position and the
recomputed versioned hash equals the anchor's hash, `verify_blob` returns
exactly the collapse of the single-item verification's outcome — success
only on `Ok(true)`, and `InvalidProof` (never `KZGError`) on every other
outcome, library error or false verification alike. -/
theorem C6_verify_blob_collapse (sha256 : Sha256Fn) (verifyOne : VerifyOne)
    (item : BlobTransactionSidecarItem) (anchor : BlockNumHash)
    (hidx : item.index = anchor.number)
    (hhash : item.to_kzg_versioned_hash sha256 = anchor.hash) :
    (item.verify_blob sha256 verifyOne anchor
        = match item.verify_blob_kzg_proof verifyOne with
          | .ok true => .ok ()
          | .ok false => .error .InvalidProof
          | .error _ => .error .InvalidProof)
    ∧ ∀ e, item.verify_blob sha256 verifyOne anchor ≠ .error (.KZGError e) := by
  have hmain : item.verify_blob sha256 verifyOne anchor
      = match item.verify_blob_kzg_proof verifyOne with
        | .ok true => .ok ()
        | .ok false => .error .InvalidProof
        | .error _ => .error .InvalidProof := by
    rw [BlobTransactionSidecarItem.verify_blob, if_neg (by simp [hidx]),
      if_neg (by simp [hhash])]
    cases hv : item.verify_blob_kzg_proof verifyOne with
    | ok b => cases b <;> rfl
    | error e => rfl
  refine ⟨hmain, ?_⟩
  intro e
  rw [hmain]
  cases hv : item.verify_blob_kzg_proof verifyOne with
  | ok b => cases b <;> simp
  | error e2 => simp

/-- C6 (witness): a concrete item whose index and recomputed hash both
match the anchor, with a library verification that fails with an internal
fault; `verify_blob` reports `InvalidProof`. -/
theorem C6_witness :
    (item0.verify_blob shaZero verifyFault
          (BlockNumHash.mk 0 (item0.to_kzg_versioned_hash shaZero))
        = match item0.verify_blob_kzg_proof verifyFault with
          | .ok true => .ok ()
          | .ok false => .error .InvalidProof
          | .error _ => .error .InvalidProof)
    ∧ ∀ e, item0.verify_blob shaZero verifyFault
        (BlockNumHash.mk 0 (item0.to_kzg_versioned_hash shaZero))
        ≠ .error (.KZGError e) :=
  C6_verify_blob_collapse shaZero verifyFault item0
    (BlockNumHash.mk 0 (item0.to_kzg_versioned_hash shaZero)) rfl rfl

/-- C7: the versioned-hash transform is total and deterministic: for every
digest function and item it is the SHA-256 digest of the commitment with
byte 0 overwritten by the version tag (value 1); consequently byte 0 of
every versioned hash is 1, and items with equal commitments always produce
equal hashes. -/
theorem C7_versioned_hash_transform (sha256 : Sha256Fn)
    (item : BlobTransactionSidecarItem) :
    item.to_kzg_versioned_hash sha256
        = set_byte0 VERSIONED_HASH_VERSION_KZG (sha256 item.kzg_commitment.val)
    ∧ (item.to_kzg_versioned_hash sha256).val.headI = 1
    ∧ ∀ item2 : BlobTransactionSidecarItem,
        item.kzg_commitment = item2.kzg_commitment →
        item.to_kzg_versioned_hash sha256 = item2.to_kzg_versioned_hash sha256 := by
  refine ⟨rfl, ?_, ?_⟩
  · simp only [BlobTransactionSidecarItem.to_kzg_versioned_hash, set_byte0]
    cases hl : (sha256 item.kzg_commitment.val).val with
    | nil =>
      have hp := (sha256 item.kzg_commitment.val).property
      rw [hl] at hp
      simp at hp
    | cons a t => simp [VERSIONED_HASH_VERSION_KZG]
  · intro item2 hcomm
    rw [BlobTransactionSidecarItem.to_kzg_versioned_hash,
      BlobTransactionSidecarItem.to_kzg_versioned_hash, hcomm]

/-- C7 (witness): the transform evaluated at the concrete zero item. -/
theorem C7_witness :
    (item0.to_kzg_versioned_hash shaZero).val.headI = 1
    ∧ item0.to_kzg_versioned_hash shaZero = item0.to_kzg_versioned_hash shaZero :=
  ⟨(C7_versioned_hash_transform shaZero item0).2.1,
    (C7_versioned_hash_transform shaZero item0).2.2 item0 rfl⟩

/-- C8: decoding is a left inverse of encoding — for every sidecar whose
three sequences have equal lengths (including the empty sidecar), decoding
the bytes produced by `encode_inner` yields the original sidecar with an
empty remainder. -/
theorem C8_decode_encode_roundtrip (sc : BlobTransactionSidecar)
    (h1 : sc.blobs.length = sc.commitments.length)
    (h2 : sc.commitments.length = sc.proofs.length) :
    BlobTransactionSidecar.decode sc.encode_inner = some (sc, []) :=
  sidecar_decode_encode sc

/-- C8 (witness): the empty sidecar round-trips. -/
theorem C8_witness :
    (BlobTransactionSidecar.mk [] [] []).blobs.length
        = (BlobTransactionSidecar.mk [] [] []).commitments.length
    ∧ (BlobTransactionSidecar.mk [] [] []).commitments.length
        = (BlobTransactionSidecar.mk [] [] []).proofs.length
    ∧ BlobTransactionSidecar.decode (BlobTransactionSidecar.mk [] [] []).encode_inner
        = some (BlobTransactionSidecar.mk [] [] [], []) :=
  ⟨rfl, rfl, C8_decode_encode_roundtrip (BlobTransactionSidecar.mk [] [] []) rfl rfl⟩

/-- C9: for every sidecar, with no precondition on the three lengths,
`fields_len` equals the exact byte length of the encoding produced by
`encode_inner`. -/
theorem C9_fields_len_eq_encoded_length (sc : BlobTransactionSidecar) :
    sc.fields_len = sc.encode_inner.length := by
  rw [BlobTransactionSidecar.fields_len, BlobTransactionSidecar.encode_inner,
    List.length_append, List.length_append, length_encodeVec, length_encodeVec,
    length_encodeVec]
